import Mathlib

/-!
Verification development for the discovery-record-set persistence adapter
(`beacon_node/network/src/persisted_dht.rs`).

The adapter stores a list of discovery records (ENRs) as a single RLP list
under a fixed 32-byte zero key in a dedicated logical column, and offers
three operations: `load_dht`, `persist_dht`, `clear_dht`.

Embedding conventions:
* bytes are `Nat` values (< 256 for every byte the program actually produces);
* the record type (ENR) is an external collaborator, so the codec for a single
  record is a parameter (`RecordCodec`) and its contract (self-describing
  encoding, strict consumption) appears as hypotheses of the theorems;
* the RLP list header layer reproduces the `alloy_rlp` dependency
  (header encode/decode, `Rlp::new`, the `get_next` loop);
* the key-value store is an external collaborator, modelled as an interface
  (`ItemStore`) with explicit state passing, plus a concrete in-memory
  instance mirroring the `MemoryStore` used by the repository's test.
-/

/-- Byte strings, as lists of naturals. -/
abbrev Bytes := List Nat

/-- Modelled from the spec: the decode-failure causes of the RLP layer
(the `alloy_rlp` dependency is outside this repository).  These are the
low-level causes whose description a `MalformedEncoding` error carries. -/
inductive RlpErr : Type where
  | inputTooShort : RlpErr
  | nonCanonicalSingleByte : RlpErr
  | nonCanonicalSize : RlpErr
  | leadingZero : RlpErr
  | unexpectedString : RlpErr
  | unexpectedList : RlpErr
  | overflow : RlpErr
  | custom (msg : String) : RlpErr
deriving DecidableEq

/-- Human-readable description of an RLP decode failure (the `Display`
rendering of the low-level cause). -/
def RlpErr.display : RlpErr → String
  | .inputTooShort => "input too short"
  | .nonCanonicalSingleByte => "non-canonical single byte"
  | .nonCanonicalSize => "non-canonical size"
  | .leadingZero => "leading zero"
  | .unexpectedString => "unexpected string"
  | .unexpectedList => "unexpected list"
  | .overflow => "overflow"
  | .custom msg => msg

/-- Minimal big-endian byte rendering of a natural number (no leading zero
byte; `0` renders as the empty string).  Used by the long-form RLP list
header. -/
def natToBeBytes (n : Nat) : List Nat :=
  if h : n = 0 then [] else natToBeBytes (n / 256) ++ [n % 256]
termination_by n
decreasing_by exact Nat.div_lt_self (Nat.pos_of_ne_zero h) (by omega)

/-- Big-endian interpretation of a byte string as a natural number. -/
def beToNat (l : List Nat) : Nat :=
  l.foldl (fun acc b => acc * 256 + b) 0

/-- Modelled from the spec: a decoded RLP header — whether the payload is a
list, and its length in bytes. -/
structure RlpHeader where
  isList : Bool
  payloadLength : Nat
deriving DecidableEq

/-- Long-form length field: guard `len_of_len`, forbid a leading zero,
read the big-endian length, forbid the non-canonical short form, and
return the header together with the bytes after the length field. -/
def longLength (isList : Bool) (lenOfLen : Nat) (buf : List Nat) :
    Except RlpErr (RlpHeader × List Nat) :=
  if lenOfLen = 0 ∨ lenOfLen > 8 then
    .error (.custom "invalid header, len_of_len must be in 1..=8")
  else if buf.length < lenOfLen then
    .error .inputTooShort
  else
    let lenBytes := buf.take lenOfLen
    if lenBytes.headD 1 = 0 then
      .error .leadingZero
    else
      let payloadLength := beToNat lenBytes
      if payloadLength < 56 then
        .error .nonCanonicalSize
      else
        .ok (⟨isList, payloadLength⟩, buf.drop lenOfLen)

/-- Modelled from the spec: RLP header decoding (`Header::decode` of the
`alloy_rlp` dependency).  Consumes the header prefix and returns the header
together with the remaining bytes; a single byte below `0x80` is its own
payload, so the buffer is not advanced in that case. -/
def headerDecode (buf : List Nat) : Except RlpErr (RlpHeader × List Nat) :=
  match buf with
  | [] => .error .inputTooShort
  | b :: rest =>
    if b ≤ 0x7F then
      .ok (⟨false, 1⟩, b :: rest)
    else if b ≤ 0xB7 then
      let payloadLength := b - 0x80
      if payloadLength = 1 then
        match rest with
        | [] => .error .inputTooShort
        | b2 :: _ =>
          if b2 < 0x80 then .error .nonCanonicalSingleByte
          else .ok (⟨false, 1⟩, rest)
      else .ok (⟨false, payloadLength⟩, rest)
    else if b ≤ 0xBF then
      longLength false (b - 0xB7) rest
    else if b ≤ 0xF7 then
      .ok (⟨true, b - 0xC0⟩, rest)
    else
      longLength true (b - 0xF7) rest

/-- Modelled from the spec: `Rlp::new` of the `alloy_rlp` dependency —
decode the outer header, require it to flag a list, require the payload to
fit in the remaining bytes, and return the list payload view. -/
def rlpNew (buf : List Nat) : Except RlpErr (List Nat) :=
  match headerDecode buf with
  | .error e => .error e
  | .ok (h, rest) =>
    if h.isList then
      if rest.length < h.payloadLength then .error .inputTooShort
      else .ok (rest.take h.payloadLength)
    else .error .unexpectedString

/-- RLP list header for a payload of the given byte length: short form
`0xC0 + len` below 56, long form `0xF7 + len_of_len` followed by the
big-endian length otherwise. -/
def listHeader (payloadLength : Nat) : List Nat :=
  if payloadLength < 56 then [0xC0 + payloadLength]
  else (0xF7 + (natToBeBytes payloadLength).length) :: natToBeBytes payloadLength

/-- Modelled from the spec: the codec of one discovery record (the ENR type
is an external collaborator).  `encode` renders a record as one
self-describing RLP item; `decode` parses one record off the front of a
byte string and returns it with the unconsumed tail. -/
structure RecordCodec (α : Type) where
  encode : α → List Nat
  decode : List Nat → Except RlpErr (α × List Nat)

/-- Concatenation of the canonical encodings of the records, in sequence
order — the payload of the RLP list written by `alloy_rlp::encode_list`. -/
def encodePayload {α : Type} (C : RecordCodec α) : List α → List Nat
  | [] => []
  | a :: t => C.encode a ++ encodePayload C t

/-- Modelled from the spec: `alloy_rlp::encode_list` — a length-prefixed
list header followed by each record's own canonical encoding in sequence
order. -/
def encode_list {α : Type} (C : RecordCodec α) (items : List α) : List Nat :=
  listHeader (encodePayload C items).length ++ encodePayload C items

/-- The `get_next` loop of `PersistedDht::from_store_bytes`: repeatedly
parse the next record from the list payload until it is exhausted.  The
source loop is unbounded; here it is given explicit fuel, and fuel
exhaustion (`none`) is proved unreachable for any strictly-consuming record
codec. -/
def getNextLoop {α : Type} (C : RecordCodec α) :
    Nat → List Nat → Option (Except RlpErr (List α))
  | 0, _ => none
  | fuel + 1, payload =>
    if payload.isEmpty then some (.ok [])
    else
      match C.decode payload with
      | .ok (a, rest) => (getNextLoop C fuel rest).map (·.map (a :: ·))
      | .error e => some (.error e)

/-- Store-level errors (`store::Error`): the `RlpError` variant wraps a
malformed-encoding cause; `DBError` stands for the store's own failures. -/
inductive StoreError : Type where
  | RlpError (msg : String) : StoreError
  | DBError (msg : String) : StoreError
deriving DecidableEq

/-- Wrapper around the DHT's record list for persistence to disk
(`PersistedDht`). -/
structure PersistedDht (α : Type) where
  enrs : List α
deriving DecidableEq

/-- Logical columns of the key-value store; `DhtEnrs` is the column
reserved for the persisted discovery-record set. -/
inductive DBColumn : Type where
  | DhtEnrs : DBColumn
  | BeaconBlock : DBColumn
  | BeaconState : DBColumn
deriving DecidableEq

/-- `PersistedDht::db_column`: the constant logical column. -/
def PersistedDht.db_column : DBColumn := DBColumn.DhtEnrs

/-- `PersistedDht::as_store_bytes`: RLP-encode the record list into a fresh
buffer with `alloy_rlp::encode_list`. -/
def PersistedDht.as_store_bytes {α : Type} (C : RecordCodec α)
    (p : PersistedDht α) : Bytes :=
  encode_list C p.enrs

/-- `PersistedDht::from_store_bytes`: open the outer list with `Rlp::new`
(wrapping its failure as `RlpError` with the "Failed to decode RLP: "
prefix), then run the `get_next` loop, wrapping an element failure as
`RlpError` with the cause's own description.  The fuel `payload.length + 1`
is a modelling device; the loop-fuel branch is unreachable for any
strictly-consuming record codec. -/
def PersistedDht.from_store_bytes {α : Type} (C : RecordCodec α)
    (bytes : Bytes) : Except StoreError (PersistedDht α) :=
  match rlpNew bytes with
  | .error e => .error (.RlpError ("Failed to decode RLP: " ++ e.display))
  | .ok payload =>
    match getNextLoop C (payload.length + 1) payload with
    | some (.ok enrs) => .ok ⟨enrs⟩
    | some (.error e) => .error (.RlpError e.display)
    | none => .error (.RlpError "record loop did not terminate")

/-- Storage keys are raw byte strings. -/
abbrev StoreKey := List Nat

/-- `DHT_DB_KEY`: the 32-byte all-zero key (`Hash256::ZERO`) under which the
single persisted set lives. -/
def DHT_DB_KEY : StoreKey := List.replicate 32 0

/-- Modelled from the spec: the byte-level interface of the external
key-value store (`get_bytes` / `put_bytes` / `key_delete`, each scoped by a
logical column).  State is passed explicitly; `get_bytes` also returns the
post-call state so that read-only-ness is a provable property rather than a
typing artifact. -/
structure ItemStore (σ : Type) where
  get_bytes : σ → DBColumn → StoreKey → Except StoreError (Option Bytes) × σ
  put_bytes : σ → DBColumn → StoreKey → Bytes → Except StoreError σ
  key_delete : σ → DBColumn → StoreKey → Except StoreError σ

/-- Modelled from the spec: the store's get-item primitive specialised to
`PersistedDht` — fetch the bytes under the key in the item's column and
deserialize them, propagating either failure. -/
def get_item {σ α : Type} (S : ItemStore σ) (C : RecordCodec α) (s : σ)
    (key : StoreKey) : Except StoreError (Option (PersistedDht α)) × σ :=
  let r := S.get_bytes s PersistedDht.db_column key
  (match r.1 with
   | .ok (some bs) => (PersistedDht.from_store_bytes C bs).map some
   | .ok none => .ok none
   | .error e => .error e,
   r.2)

/-- Modelled from the spec: the store's put-item primitive specialised to
`PersistedDht` — serialize the item and write the bytes under the key in
the item's column. -/
def put_item {σ α : Type} (S : ItemStore σ) (C : RecordCodec α) (s : σ)
    (key : StoreKey) (item : PersistedDht α) : Except StoreError σ :=
  S.put_bytes s PersistedDht.db_column key (item.as_store_bytes C)

/-- `load_dht`: read the item under `DHT_DB_KEY`; on a present,
well-formed item return its records, otherwise (absent key, store failure,
or malformed encoding) return the empty list.  Never an error. -/
def load_dht {σ α : Type} (S : ItemStore σ) (C : RecordCodec α) (s : σ) :
    List α × σ :=
  let r := get_item S C s DHT_DB_KEY
  (match r.1 with
   | .ok (some p) => p.enrs
   | _ => [],
   r.2)

/-- `persist_dht`: write the record list under `DHT_DB_KEY` as a
`PersistedDht` item, returning the store's own result. -/
def persist_dht {σ α : Type} (S : ItemStore σ) (C : RecordCodec α) (s : σ)
    (enrs : List α) : Except StoreError σ :=
  put_item S C s DHT_DB_KEY ⟨enrs⟩

/-- `clear_dht`: delete whatever lives under `DHT_DB_KEY` in the
`PersistedDht` column, returning the store's own result. -/
def clear_dht {σ : Type} (S : ItemStore σ) (s : σ) : Except StoreError σ :=
  S.key_delete s PersistedDht.db_column DHT_DB_KEY

/-- Association-list lookup over (column, key) pairs. -/
def lookupKV : List ((DBColumn × StoreKey) × Bytes) → DBColumn → StoreKey → Option Bytes
  | [], _, _ => none
  | (ck, v) :: t, c, k => if ck = (c, k) then some v else lookupKV t c k

/-- Remove every entry under the (column, key) pair. -/
def removeKV : List ((DBColumn × StoreKey) × Bytes) → DBColumn → StoreKey → List ((DBColumn × StoreKey) × Bytes)
  | [], _, _ => []
  | (ck, v) :: t, c, k =>
    if ck = (c, k) then removeKV t c k else (ck, v) :: removeKV t c k

/-- Insert-or-replace under the (column, key) pair. -/
def insertKV (l : List ((DBColumn × StoreKey) × Bytes)) (c : DBColumn)
    (k : StoreKey) (v : Bytes) : List ((DBColumn × StoreKey) × Bytes) :=
  ((c, k), v) :: removeKV l c k

/-- Modelled from the spec: the in-memory store used by the repository's
test (`store::MemoryStore`) — a column-and-key-indexed map of byte
strings. -/
structure MemoryStore where
  db : List ((DBColumn × StoreKey) × Bytes)
deriving DecidableEq

/-- Modelled from the spec: the `MemoryStore` instance of the byte-level
store interface.  Reads leave the state untouched; writes replace; deletes
remove; none of the three ever fails. -/
def memItemStore : ItemStore MemoryStore where
  get_bytes s c k := (.ok (lookupKV s.db c k), s)
  put_bytes s c k v := .ok ⟨insertKV s.db c k v⟩
  key_delete s c k := .ok ⟨removeKV s.db c k⟩

/-- A store whose write paths always fail: used to observe that the
operations pass the store's error through unchanged. -/
def failStore : ItemStore Unit where
  get_bytes s _ _ := (.error (.DBError "get failed"), s)
  put_bytes _ _ _ _ := .error (.DBError "put failed")
  key_delete _ _ _ := .error (.DBError "delete failed")

/-- A concrete record codec standing in for the external ENR codec in
witnesses: a record is a 7-bit value, encoded as the single-byte RLP item
it is its own encoding of. -/
def testCodec : RecordCodec (Fin 128) where
  encode a := [a.val]
  decode bs :=
    match bs with
    | [] => .error .inputTooShort
    | b :: rest =>
      if h : b < 128 then .ok (⟨b, h⟩, rest) else .error .unexpectedString

/-- Decidable equality of `Except` results, for evaluating the model at
concrete inputs. -/
instance {e a : Type} [DecidableEq e] [DecidableEq a] : DecidableEq (Except e a) := fun x y =>
  match x, y with
  | .ok u, .ok v =>
    if h : u = v then isTrue (by rw [h]) else isFalse (fun hc => h (Except.ok.inj hc))
  | .error u, .error v =>
    if h : u = v then isTrue (by rw [h]) else isFalse (fun hc => h (Except.error.inj hc))
  | .ok _, .error _ => isFalse (fun hc => Except.noConfusion hc)
  | .error _, .ok _ => isFalse (fun hc => Except.noConfusion hc)

/-! ## Helper lemmas: big-endian length bytes -/

theorem natToBeBytes_zero : natToBeBytes 0 = [] := by
  rw [natToBeBytes]
  simp

theorem natToBeBytes_pos {n : Nat} (h : n ≠ 0) :
    natToBeBytes n = natToBeBytes (n / 256) ++ [n % 256] := by
  rw [natToBeBytes]
  simp [h]

theorem beToNat_append_singleton (l : List Nat) (b : Nat) :
    beToNat (l ++ [b]) = beToNat l * 256 + b := by
  simp [beToNat, List.foldl_append]

theorem beToNat_natToBeBytes (n : Nat) : beToNat (natToBeBytes n) = n := by
  induction n using Nat.strong_induction_on with
  | _ n ih =>
    by_cases h : n = 0
    · subst h
      rw [natToBeBytes_zero]
      rfl
    · rw [natToBeBytes_pos h, beToNat_append_singleton,
        ih (n / 256) (Nat.div_lt_self (Nat.pos_of_ne_zero h) (by omega))]
      omega

theorem natToBeBytes_ne_nil {n : Nat} (h : n ≠ 0) : natToBeBytes n ≠ [] := by
  rw [natToBeBytes_pos h]
  simp

theorem natToBeBytes_headD {n : Nat} (h : n ≠ 0) :
    (natToBeBytes n).headD 1 ≠ 0 := by
  induction n using Nat.strong_induction_on with
  | _ n ih =>
    rw [natToBeBytes_pos h]
    by_cases hq : n / 256 = 0
    · rw [hq, natToBeBytes_zero, List.nil_append]
      have hlt : n < 256 := by omega
      simpa [Nat.mod_eq_of_lt hlt] using h
    · obtain ⟨b, t, hbt⟩ : ∃ b t, natToBeBytes (n / 256) = b :: t := by
        cases hx : natToBeBytes (n / 256) with
        | nil => exact absurd hx (natToBeBytes_ne_nil hq)
        | cons b t => exact ⟨b, t, rfl⟩
      have hh := ih (n / 256) (Nat.div_lt_self (Nat.pos_of_ne_zero h) (by omega)) hq
      rw [hbt] at hh ⊢
      simpa using hh

theorem natToBeBytes_length_le : ∀ (k n : Nat), n < 256 ^ k →
    (natToBeBytes n).length ≤ k := by
  intro k
  induction k with
  | zero =>
    intro n hn
    have : n = 0 := by simpa using hn
    simp [this, natToBeBytes_zero]
  | succ k ih =>
    intro n hn
    by_cases h : n = 0
    · simp [h, natToBeBytes_zero]
    · rw [natToBeBytes_pos h]
      have hq : n / 256 < 256 ^ k := by
        apply Nat.div_lt_of_lt_mul
        calc n < 256 ^ (k + 1) := hn
        _ = 256 * 256 ^ k := by ring
      have := ih (n / 256) hq
      simp only [List.length_append, List.length_cons, List.length_nil]
      omega


/-! ## Helper lemmas: list-header round trip -/

set_option maxRecDepth 8192

theorem headerDecode_listHeader (n : Nat) (rest : List Nat) (hn : n < 2 ^ 64) :
    headerDecode (listHeader n ++ rest) = .ok (⟨true, n⟩, rest) := by
  by_cases h56 : n < 56
  · rw [listHeader, if_pos h56, List.cons_append, List.nil_append]
    have h1 : ¬(0xC0 + n ≤ 0x7F) := by omega
    have h2 : ¬(0xC0 + n ≤ 0xB7) := by omega
    have h3 : ¬(0xC0 + n ≤ 0xBF) := by omega
    have h4 : 0xC0 + n ≤ 0xF7 := by omega
    have h5 : 0xC0 + n - 0xC0 = n := by omega
    simp only [headerDecode, if_neg h1, if_neg h2, if_neg h3, if_pos h4, h5]
  · have hne : n ≠ 0 := by omega
    have hL1 : 1 ≤ (natToBeBytes n).length := by
      have := natToBeBytes_ne_nil hne
      cases hx : natToBeBytes n with
      | nil => exact absurd hx this
      | cons b t => simp [hx]
    have hL8 : (natToBeBytes n).length ≤ 8 := by
      apply natToBeBytes_length_le 8 n
      calc n < 2 ^ 64 := hn
      _ = 256 ^ 8 := by norm_num
    rw [listHeader, if_neg h56, List.cons_append]
    have h1 : ¬(0xF7 + (natToBeBytes n).length ≤ 0x7F) := by omega
    have h2 : ¬(0xF7 + (natToBeBytes n).length ≤ 0xB7) := by omega
    have h3 : ¬(0xF7 + (natToBeBytes n).length ≤ 0xBF) := by omega
    have h4 : ¬(0xF7 + (natToBeBytes n).length ≤ 0xF7) := by omega
    have harg : 0xF7 + (natToBeBytes n).length - 0xF7 = (natToBeBytes n).length := by
      omega
    simp only [headerDecode, if_neg h1, if_neg h2, if_neg h3, if_neg h4, harg]
    have g1 : ¬((natToBeBytes n).length = 0 ∨ (natToBeBytes n).length > 8) := by
      omega
    have g2 : ¬((natToBeBytes n ++ rest).length < (natToBeBytes n).length) := by
      rw [List.length_append]
      omega
    simp only [longLength, if_neg g1, if_neg g2, List.take_left, List.drop_left]
    rw [if_neg (by simpa using natToBeBytes_headD hne)]
    rw [beToNat_natToBeBytes, if_neg (by omega)]

theorem rlpNew_listHeader (payload rest : List Nat)
    (hn : payload.length < 2 ^ 64) :
    rlpNew (listHeader payload.length ++ (payload ++ rest))
      = .ok payload := by
  rw [rlpNew, headerDecode_listHeader payload.length (payload ++ rest) hn]
  have hlen : ¬((payload ++ rest).length < payload.length) := by
    rw [List.length_append]
    omega
  simp only [if_neg hlen, List.take_left, if_true]

theorem rlpNew_encode_list {α : Type} (C : RecordCodec α) (items : List α)
    (hn : (encodePayload C items).length < 2 ^ 64) :
    rlpNew (encode_list C items) = .ok (encodePayload C items) := by
  rw [encode_list]
  have := rlpNew_listHeader (encodePayload C items) [] hn
  simpa using this

/-! ## Helper lemmas: the record loop -/

/-- The record-codec contract, part one: a record's encoding is
self-describing — decoding from its encoding followed by any tail returns
the record and exactly that tail. -/
def DecodeEncode {α : Type} (C : RecordCodec α) : Prop :=
  ∀ (a : α) (rest : List Nat), C.decode (C.encode a ++ rest) = .ok (a, rest)

/-- The record-codec contract, part two: a successful parse strictly
consumes input. -/
def DecodeShrinks {α : Type} (C : RecordCodec α) : Prop :=
  ∀ (bs : List Nat) (a : α) (rest : List Nat),
    C.decode bs = .ok (a, rest) → rest.length < bs.length

theorem encode_ne_nil {α : Type} {C : RecordCodec α}
    (hre : DecodeEncode C) (hsh : DecodeShrinks C) (a : α) :
    C.encode a ≠ [] := by
  have h := hre a []
  rw [List.append_nil] at h
  have := hsh (C.encode a) a [] h
  exact List.ne_nil_of_length_pos (by simpa using this)

theorem getNextLoop_encodePayload {α : Type} {C : RecordCodec α}
    (hre : DecodeEncode C) (hsh : DecodeShrinks C) :
    ∀ (items : List α) (fuel : Nat),
      (encodePayload C items).length < fuel →
      getNextLoop C fuel (encodePayload C items) = some (.ok items) := by
  intro items
  induction items with
  | nil =>
    intro fuel hf
    cases fuel with
    | zero => omega
    | succ f => simp [getNextLoop, encodePayload]
  | cons a t ih =>
    intro fuel hf
    cases fuel with
    | zero => omega
    | succ f =>
      have hnil : C.encode a ≠ [] := encode_ne_nil hre hsh a
      have hne : encodePayload C (a :: t) ≠ [] := by
        rw [encodePayload]
        intro hc
        exact hnil (List.append_eq_nil.mp hc).1
      rw [getNextLoop, if_neg (by simpa [List.isEmpty_iff] using hne)]
      rw [encodePayload, hre a (encodePayload C t)]
      have hlen : (encodePayload C t).length < f := by
        have h1 : 1 ≤ (C.encode a).length := by
          cases hx : C.encode a with
          | nil => exact absurd hx hnil
          | cons b l => simp [hx]
        rw [encodePayload] at hf
        rw [List.length_append] at hf
        omega
      show Option.map (fun x => Except.map (fun x => a :: x) x)
          (getNextLoop C f (encodePayload C t)) = some (.ok (a :: t))
      rw [ih f hlen]
      rfl

theorem getNextLoop_isSome {α : Type} {C : RecordCodec α}
    (hsh : DecodeShrinks C) :
    ∀ (fuel : Nat) (payload : List Nat), payload.length < fuel →
      (getNextLoop C fuel payload).isSome := by
  intro fuel
  induction fuel with
  | zero =>
    intro payload hf
    omega
  | succ f ih =>
    intro payload hf
    rw [getNextLoop]
    by_cases hp : payload.isEmpty
    · rw [if_pos hp]
      rfl
    · rw [if_neg hp]
      cases hdec : C.decode payload with
      | error e => rfl
      | ok ar =>
        obtain ⟨a, rest⟩ := ar
        have hlt := hsh payload a rest hdec
        have hs := ih rest (by omega)
        show (Option.map (fun x => Except.map (fun x => a :: x) x)
            (getNextLoop C f rest)).isSome = true
        cases hres : getNextLoop C f rest with
        | none =>
          rw [hres] at hs
          exact absurd hs (by simp)
        | some r => rfl

/-- The shared round-trip core: on the output of `as_store_bytes`,
`from_store_bytes` recovers the original record list. -/
theorem from_store_bytes_as_store_bytes {α : Type} {C : RecordCodec α}
    (hre : DecodeEncode C) (hsh : DecodeShrinks C) (enrs : List α)
    (hlen : (encodePayload C enrs).length < 2 ^ 64) :
    PersistedDht.from_store_bytes C (PersistedDht.as_store_bytes C ⟨enrs⟩)
      = .ok ⟨enrs⟩ := by
  rw [PersistedDht.from_store_bytes, PersistedDht.as_store_bytes]
  rw [rlpNew_encode_list C enrs hlen]
  show (match getNextLoop C ((encodePayload C enrs).length + 1) (encodePayload C enrs) with
    | some (.ok enrs) => (.ok ⟨enrs⟩ : Except StoreError (PersistedDht α))
    | some (.error e) => .error (.RlpError e.display)
    | none => .error (.RlpError "record loop did not terminate")) = .ok ⟨enrs⟩
  rw [getNextLoop_encodePayload hre hsh enrs ((encodePayload C enrs).length + 1) (by omega)]

/-! ## Helper lemmas: the in-memory store and the test codec -/

theorem lookupKV_insertKV (l : List ((DBColumn × StoreKey) × Bytes))
    (c : DBColumn) (k : StoreKey) (v : Bytes) :
    lookupKV (insertKV l c k v) c k = some v := by
  simp [insertKV, lookupKV]

theorem removeKV_removeKV (l : List ((DBColumn × StoreKey) × Bytes))
    (c : DBColumn) (k : StoreKey) :
    removeKV (removeKV l c k) c k = removeKV l c k := by
  induction l with
  | nil => rfl
  | cons e t ih =>
    obtain ⟨ck, v⟩ := e
    by_cases h : ck = (c, k)
    · simp [removeKV, h, ih]
    · simp [removeKV, h, ih]

theorem testCodec_decode_encode : DecodeEncode testCodec := by
  intro a rest
  simp [testCodec, a.isLt]

theorem testCodec_shrinks : DecodeShrinks testCodec := by
  intro bs a rest h
  cases bs with
  | nil => simp [testCodec] at h
  | cons b t =>
    simp only [testCodec] at h
    by_cases hb : b < 128
    · rw [dif_pos hb] at h
      have ht : t = rest := congrArg Prod.snd (Except.ok.inj h)
      subst ht
      simp
    · rw [dif_neg hb] at h
      exact absurd h (by simp)

/-! ## Claims -/

/-- Claim C1: for every record sequence S (including the empty sequence and
sequences with duplicates) over any record codec satisfying the external
ENR contract, and whose RLP payload fits the machine-size bound of the
source's byte vectors, decoding the encoding —
`PersistedDht::from_store_bytes` applied to `PersistedDht::as_store_bytes`
— succeeds and yields a record sequence equal element-wise and in the same
order to S. -/
theorem C1_roundtrip {α : Type} (C : RecordCodec α)
    (hre : DecodeEncode C) (hsh : DecodeShrinks C) (enrs : List α)
    (hlen : (encodePayload C enrs).length < 2 ^ 64) :
    PersistedDht.from_store_bytes C (PersistedDht.as_store_bytes C ⟨enrs⟩)
      = .ok ⟨enrs⟩ :=
  from_store_bytes_as_store_bytes hre hsh enrs hlen

theorem C1_roundtrip_witness :
    PersistedDht.from_store_bytes testCodec
      (PersistedDht.as_store_bytes testCodec ⟨[3, 3, 7]⟩) = .ok ⟨[3, 3, 7]⟩ :=
  C1_roundtrip testCodec testCodec_decode_encode testCodec_shrinks [3, 3, 7]
    (by decide)

/-- Claim C3 (counterexample): decoding the empty byte sequence does not
succeed with the empty set — `from_store_bytes` fails on it, because the
RLP header decoder finds no list header in zero bytes. -/
theorem C3_empty_input_errors :
    PersistedDht.from_store_bytes testCodec ([] : Bytes) ≠ .ok ⟨[]⟩ ∧
    PersistedDht.from_store_bytes testCodec ([] : Bytes)
      = .error (.RlpError "Failed to decode RLP: input too short") := by
  refine ⟨?_, by decide⟩
  decide

/-- Claim C3 (amended): decoding the zero-length input fails with an
`RlpError` (input too short); the valid minimal "zero records" encoding is
the one-byte list header `0xC0` produced by `as_store_bytes` on the empty
set, and decoding it succeeds and yields the empty set. -/
theorem C3_empty_list_identity {α : Type} (C : RecordCodec α) :
    PersistedDht.as_store_bytes C ⟨[]⟩ = [0xC0] ∧
    PersistedDht.from_store_bytes C (PersistedDht.as_store_bytes C ⟨[]⟩)
      = .ok ⟨[]⟩ ∧
    PersistedDht.from_store_bytes C ([] : Bytes)
      = .error (.RlpError "Failed to decode RLP: input too short") :=
  ⟨rfl, rfl, rfl⟩

/-- Claim C4: on every input byte sequence, `from_store_bytes` is total and
either returns the full decoded list or a `StoreError::RlpError` — never
any other error kind and never a partial list; a failure of the outer
header parse surfaces as `RlpError` with the sub-error's description after
the "Failed to decode RLP: " prefix, and a failure of a record-parse step
surfaces as `RlpError` carrying the sub-error's description. -/
theorem C4_malformed_safety {α : Type} (C : RecordCodec α) (bytes : Bytes) :
    ((∃ p, PersistedDht.from_store_bytes C bytes = .ok p) ∨
      (∃ msg, PersistedDht.from_store_bytes C bytes = .error (.RlpError msg))) ∧
    (∀ e, rlpNew bytes = .error e →
      PersistedDht.from_store_bytes C bytes
        = .error (.RlpError ("Failed to decode RLP: " ++ e.display))) ∧
    (∀ payload e, rlpNew bytes = .ok payload →
      getNextLoop C (payload.length + 1) payload = some (.error e) →
      PersistedDht.from_store_bytes C bytes = .error (.RlpError e.display)) := by
  refine ⟨?_, ?_, ?_⟩
  · cases hrlp : rlpNew bytes with
    | error e =>
      right
      refine ⟨"Failed to decode RLP: " ++ e.display, ?_⟩
      rw [PersistedDht.from_store_bytes, hrlp]
    | ok payload =>
      cases hl : getNextLoop C (payload.length + 1) payload with
      | none =>
        right
        refine ⟨"record loop did not terminate", ?_⟩
        rw [PersistedDht.from_store_bytes, hrlp]
        show (match getNextLoop C (payload.length + 1) payload with
          | some (.ok enrs) => (.ok ⟨enrs⟩ : Except StoreError (PersistedDht α))
          | some (.error e) => .error (.RlpError e.display)
          | none => .error (.RlpError "record loop did not terminate")) = _
        rw [hl]
      | some r =>
        cases r with
        | ok enrs =>
          left
          refine ⟨⟨enrs⟩, ?_⟩
          rw [PersistedDht.from_store_bytes, hrlp]
          show (match getNextLoop C (payload.length + 1) payload with
            | some (.ok enrs) => (.ok ⟨enrs⟩ : Except StoreError (PersistedDht α))
            | some (.error e) => .error (.RlpError e.display)
            | none => .error (.RlpError "record loop did not terminate")) = _
          rw [hl]
        | error e =>
          right
          refine ⟨e.display, ?_⟩
          rw [PersistedDht.from_store_bytes, hrlp]
          show (match getNextLoop C (payload.length + 1) payload with
            | some (.ok enrs) => (.ok ⟨enrs⟩ : Except StoreError (PersistedDht α))
            | some (.error e) => .error (.RlpError e.display)
            | none => .error (.RlpError "record loop did not terminate")) = _
          rw [hl]
  · intro e he
    rw [PersistedDht.from_store_bytes, he]
  · intro payload e hp hl
    rw [PersistedDht.from_store_bytes, hp]
    show (match getNextLoop C (payload.length + 1) payload with
      | some (.ok enrs) => (.ok ⟨enrs⟩ : Except StoreError (PersistedDht α))
      | some (.error e) => .error (.RlpError e.display)
      | none => .error (.RlpError "record loop did not terminate"))
        = .error (.RlpError e.display)
    rw [hl]

theorem C4_malformed_safety_witness :
    PersistedDht.from_store_bytes testCodec [0xC1, 0x80]
      = .error (.RlpError "unexpected string") :=
  (C4_malformed_safety testCodec [0xC1, 0x80]).2.2 [0x80] .unexpectedString
    (by decide) (by decide)

/-- Claim C9: the decode loop of `from_store_bytes` terminates on every
input: for any strictly-consuming record codec the loop, run with fuel
exceeding the payload length, always yields a result (each step either
consumes at least one byte, breaks on the exhausted payload, or aborts
with an error); consequently `from_store_bytes` is determined on every
input by the loop's own result, never by fuel exhaustion. -/
theorem C9_loop_terminates {α : Type} (C : RecordCodec α)
    (hsh : DecodeShrinks C) :
    (∀ (fuel : Nat) (payload : List Nat), payload.length < fuel →
      (getNextLoop C fuel payload).isSome) ∧
    (∀ (bytes payload : Bytes), rlpNew bytes = .ok payload →
      ∃ r, getNextLoop C (payload.length + 1) payload = some r ∧
        PersistedDht.from_store_bytes C bytes
          = match r with
            | .ok enrs => .ok ⟨enrs⟩
            | .error e => .error (.RlpError e.display)) := by
  refine ⟨getNextLoop_isSome hsh, ?_⟩
  intro bytes payload hp
  have hs := getNextLoop_isSome hsh (payload.length + 1) payload (by omega)
  obtain ⟨r, hr⟩ := Option.isSome_iff_exists.mp hs
  refine ⟨r, hr, ?_⟩
  cases r with
  | ok enrs =>
    rw [PersistedDht.from_store_bytes, hp]
    show (match getNextLoop C (payload.length + 1) payload with
      | some (.ok enrs) => (.ok ⟨enrs⟩ : Except StoreError (PersistedDht α))
      | some (.error e) => .error (.RlpError e.display)
      | none => .error (.RlpError "record loop did not terminate"))
        = .ok ⟨enrs⟩
    rw [hr]
  | error e =>
    rw [PersistedDht.from_store_bytes, hp]
    show (match getNextLoop C (payload.length + 1) payload with
      | some (.ok enrs) => (.ok ⟨enrs⟩ : Except StoreError (PersistedDht α))
      | some (.error e) => .error (.RlpError e.display)
      | none => .error (.RlpError "record loop did not terminate"))
        = .error (.RlpError e.display)
    rw [hr]

theorem C9_loop_terminates_witness :
    (getNextLoop testCodec 2 [5]).isSome :=
  (C9_loop_terminates testCodec testCodec_shrinks).1 2 [5] (by decide)
/-- Unfolding description of the first component of `get_item`. -/
theorem get_item_fst {σ α : Type} (S : ItemStore σ) (C : RecordCodec α)
    (s : σ) (key : StoreKey) :
    (get_item S C s key).1
      = match (S.get_bytes s PersistedDht.db_column key).1 with
        | .ok (some bs) => (PersistedDht.from_store_bytes C bs).map some
        | .ok none => .ok none
        | .error e => .error e := rfl

/-- Unfolding description of the first component of `load_dht`. -/
theorem load_dht_fst {σ α : Type} (S : ItemStore σ) (C : RecordCodec α)
    (s : σ) :
    (load_dht S C s).1
      = match (get_item S C s DHT_DB_KEY).1 with
        | .ok (some p) => p.enrs
        | _ => [] := rfl

/-- Claim C2: `load_dht` never surfaces an error — whenever the get step
does not produce well-formed stored bytes (key absent, store failure of
any kind, or malformed encoding), it returns the empty record list.  Its
return type already excludes errors; this theorem covers the degradation
to empty on every failure mode at once. -/
theorem C2_load_swallows {σ α : Type} (S : ItemStore σ) (C : RecordCodec α)
    (s : σ)
    (h : ∀ (bs : Bytes) (p : PersistedDht α),
      (S.get_bytes s PersistedDht.db_column DHT_DB_KEY).1 = .ok (some bs) →
      PersistedDht.from_store_bytes C bs ≠ .ok p) :
    (load_dht S C s).1 = [] := by
  rw [load_dht_fst, get_item_fst]
  cases hg : (S.get_bytes s PersistedDht.db_column DHT_DB_KEY).1 with
  | error e => rfl
  | ok ob =>
    cases ob with
    | none => rfl
    | some bs =>
      show (match (PersistedDht.from_store_bytes C bs).map some with
        | .ok (some p) => p.enrs
        | _ => ([] : List α)) = []
      cases hd : PersistedDht.from_store_bytes C bs with
      | error e => rfl
      | ok p => exact absurd hd (h bs p hg)

theorem C2_load_swallows_witness :
    (load_dht memItemStore testCodec ⟨[]⟩).1 = [] :=
  C2_load_swallows memItemStore testCodec ⟨[]⟩ (by
    intro bs p hbs
    simp [memItemStore, lookupKV] at hbs)

/-- Claim C5: persist/load round-trip through the in-memory store — for
every starting store state, if `persist_dht` succeeds (on the memory store
it always does), an immediate `load_dht` returns a record list equal,
ordered element-wise, to the persisted one, for any record codec
satisfying the external ENR contract within the machine-size bound. -/
theorem C5_persist_then_load {α : Type} (C : RecordCodec α)
    (hre : DecodeEncode C) (hsh : DecodeShrinks C) (enrs : List α)
    (hlen : (encodePayload C enrs).length < 2 ^ 64)
    (ms ms2 : MemoryStore)
    (hput : persist_dht memItemStore C ms enrs = .ok ms2) :
    (load_dht memItemStore C ms2).1 = enrs := by
  have hms2 : ms2 = ⟨insertKV ms.db PersistedDht.db_column DHT_DB_KEY
      (PersistedDht.as_store_bytes C ⟨enrs⟩)⟩ := by
    rw [persist_dht, put_item] at hput
    exact (Except.ok.inj hput).symm
  subst hms2
  rw [load_dht_fst, get_item_fst]
  have hget : (memItemStore.get_bytes
      ⟨insertKV ms.db PersistedDht.db_column DHT_DB_KEY
        (PersistedDht.as_store_bytes C ⟨enrs⟩)⟩
      PersistedDht.db_column DHT_DB_KEY).1
      = .ok (some (PersistedDht.as_store_bytes C ⟨enrs⟩)) := by
    show Except.ok (lookupKV (insertKV ms.db PersistedDht.db_column DHT_DB_KEY
      (PersistedDht.as_store_bytes C ⟨enrs⟩)) PersistedDht.db_column DHT_DB_KEY)
        = _
    rw [lookupKV_insertKV]
  rw [hget]
  show (match (PersistedDht.from_store_bytes C
      (PersistedDht.as_store_bytes C ⟨enrs⟩)).map some with
    | .ok (some p) => p.enrs
    | _ => ([] : List α)) = enrs
  rw [from_store_bytes_as_store_bytes hre hsh enrs hlen]
  rfl

theorem C5_persist_then_load_witness :
    (load_dht memItemStore testCodec
      ⟨insertKV [] PersistedDht.db_column DHT_DB_KEY
        (PersistedDht.as_store_bytes testCodec ⟨[5]⟩)⟩).1 = [5] :=
  C5_persist_then_load testCodec testCodec_decode_encode testCodec_shrinks [5]
    (by decide) ⟨[]⟩ _ rfl

/-- Claim C6: `persist_dht` is exactly one put-item interaction with the
store — its entire behavior is the single `put_bytes` call at the fixed
key and column with the adapter-serialized set — and on failure it returns
the store's error unchanged, with no retry. -/
theorem C6_persist_single_put {σ α : Type} (S : ItemStore σ)
    (C : RecordCodec α) (s : σ) (enrs : List α) :
    persist_dht S C s enrs
      = S.put_bytes s PersistedDht.db_column DHT_DB_KEY
          (PersistedDht.as_store_bytes C ⟨enrs⟩) ∧
    ∀ e, S.put_bytes s PersistedDht.db_column DHT_DB_KEY
          (PersistedDht.as_store_bytes C ⟨enrs⟩) = .error e →
      persist_dht S C s enrs = .error e := by
  refine ⟨rfl, ?_⟩
  intro e he
  rw [persist_dht, put_item, he]

theorem C6_persist_single_put_witness :
    persist_dht failStore testCodec () [] = .error (.DBError "put failed") :=
  (C6_persist_single_put failStore testCodec () []).2 (.DBError "put failed") rfl

/-- Claim C7: `clear_dht` is the single unconditional delete of the fixed
key in the record-set column: on the in-memory store it succeeds on every
state (in particular one where the key was never written), a second clear
immediately after a first succeeds and changes nothing further, and a
store failure is returned unchanged. -/
theorem C7_clear_idempotent :
    (∀ (σ : Type) (S : ItemStore σ) (s : σ),
      clear_dht S s = S.key_delete s PersistedDht.db_column DHT_DB_KEY) ∧
    (∀ ms : MemoryStore, clear_dht memItemStore ms
      = .ok ⟨removeKV ms.db PersistedDht.db_column DHT_DB_KEY⟩) ∧
    (∀ ms ms2 : MemoryStore, clear_dht memItemStore ms = .ok ms2 →
      clear_dht memItemStore ms2 = .ok ms2) ∧
    (∀ (σ : Type) (S : ItemStore σ) (s : σ) (e : StoreError),
      S.key_delete s PersistedDht.db_column DHT_DB_KEY = .error e →
      clear_dht S s = .error e) := by
  refine ⟨fun σ S s => rfl, fun ms => rfl, ?_, ?_⟩
  · intro ms ms2 h
    have hm : ms2 = ⟨removeKV ms.db PersistedDht.db_column DHT_DB_KEY⟩ :=
      (Except.ok.inj h).symm
    subst hm
    show Except.ok (MemoryStore.mk (removeKV
      (removeKV ms.db PersistedDht.db_column DHT_DB_KEY)
      PersistedDht.db_column DHT_DB_KEY)) = _
    rw [removeKV_removeKV]
  · intro σ S s e he
    rw [clear_dht, he]

theorem C7_clear_idempotent_witness :
    clear_dht memItemStore (⟨[]⟩ : MemoryStore) = .ok ⟨[]⟩ ∧
    clear_dht failStore () = .error (.DBError "delete failed") :=
  ⟨C7_clear_idempotent.2.2.1 ⟨[]⟩ ⟨[]⟩ (by decide),
    C7_clear_idempotent.2.2.2 Unit failStore () (.DBError "delete failed") rfl⟩

/-- Claim C8: every operation addresses the store at the single constant
key `DHT_DB_KEY` — 32 bytes, all zero — in the single constant column
reported by `PersistedDht::db_column` (`DBColumn::DhtEnrs`): persist and
clear are the respective primitive calls at exactly that key and column,
and the result of load depends only on the store's answer at that key and
column. -/
theorem C8_fixed_key_and_column :
    DHT_DB_KEY.length = 32 ∧ (∀ b ∈ DHT_DB_KEY, b = 0) ∧
    PersistedDht.db_column = DBColumn.DhtEnrs ∧
    (∀ (σ α : Type) (S : ItemStore σ) (C : RecordCodec α) (s : σ)
        (enrs : List α),
      persist_dht S C s enrs = S.put_bytes s DBColumn.DhtEnrs DHT_DB_KEY
        (PersistedDht.as_store_bytes C ⟨enrs⟩)) ∧
    (∀ (σ : Type) (S : ItemStore σ) (s : σ),
      clear_dht S s = S.key_delete s DBColumn.DhtEnrs DHT_DB_KEY) ∧
    (∀ (σ τ α : Type) (S1 : ItemStore σ) (S2 : ItemStore τ)
        (C : RecordCodec α) (s1 : σ) (s2 : τ),
      (S1.get_bytes s1 DBColumn.DhtEnrs DHT_DB_KEY).1
          = (S2.get_bytes s2 DBColumn.DhtEnrs DHT_DB_KEY).1 →
      (load_dht S1 C s1).1 = (load_dht S2 C s2).1) := by
  refine ⟨by decide, by decide, rfl, fun σ α S C s enrs => rfl,
    fun σ S s => rfl, ?_⟩
  intro σ τ α S1 S2 C s1 s2 h
  rw [load_dht_fst, get_item_fst, load_dht_fst, get_item_fst]
  rw [show PersistedDht.db_column = DBColumn.DhtEnrs from rfl, h]

theorem C8_fixed_key_and_column_witness :
    (load_dht memItemStore testCodec ⟨[]⟩).1
      = (load_dht memItemStore testCodec
          ⟨[((DBColumn.BeaconBlock, DHT_DB_KEY), [1])]⟩).1 :=
  C8_fixed_key_and_column.2.2.2.2.2 MemoryStore MemoryStore (Fin 128)
    memItemStore memItemStore testCodec ⟨[]⟩
    ⟨[((DBColumn.BeaconBlock, DHT_DB_KEY), [1])]⟩ (by decide)

/-- Claim C10: `load_dht` is read-only — it performs only the single
get-bytes interaction, its post-call store state is exactly that call's
post-call state, and on the in-memory store every stored byte under every
key and column is left unchanged. -/
theorem C10_load_readonly {α : Type} (C : RecordCodec α) :
    (∀ ms : MemoryStore, (load_dht memItemStore C ms).2 = ms) ∧
    (∀ (σ : Type) (S : ItemStore σ) (s : σ),
      (load_dht S C s).2
        = (S.get_bytes s PersistedDht.db_column DHT_DB_KEY).2) :=
  ⟨fun _ => rfl, fun _ _ _ => rfl⟩
